import Mathlib

/-!
Verification of the UACrunch artifact collector (src/UACrunch.py).

This file gives a shallow embedding of the pure content of the script:
Python strings are modelled as Lean `String`s (operated on through their
`List Char` data, since the Python string primitives used by the script —
`lower`, `strip`, `split`, single-character `replace`, substring `in`,
`startswith` — are re-implemented here over character lists so that they
compute in the kernel), file bytes as `List Nat`, the float threshold of
the text heuristic as an exact rational, I/O failure as `Option`, and the
filesystem written by the script as a map from path to content.
-/

namespace UACrunch

/-! ## Python string primitives -/

/-- Python `needle in hay` for strings: contiguous substring containment. -/
def containsSub (hay needle : List Char) : Bool :=
  needle.isPrefixOf hay ||
    match hay with
    | [] => false
    | _ :: t => containsSub t needle

/-- Python `needle in hay` on `String`. -/
def pyIn (needle hay : String) : Bool := containsSub hay.data needle.data

/-- Python `s.startswith(pre)`. -/
def pyStartswith (s pre : String) : Bool := pre.data.isPrefixOf s.data

/-- Python `s.lower()` (ASCII case folding, which is all the script's inputs use). -/
def pyLower (s : String) : String := (s.data.map Char.toLower).asString

/-- Python whitespace as recognized by `str.strip()` with no argument. -/
def pyIsSpace (c : Char) : Bool :=
  c = ' ' || c = '\t' || c = '\n' || c = '\r' || c = '\x0b' || c = '\x0c'

/-- Python `s.strip()`: remove leading and trailing whitespace. -/
def pyStrip (s : String) : String :=
  ((s.data.dropWhile pyIsSpace).reverse.dropWhile pyIsSpace).reverse.asString

/-- Python `s.split(sep)` for a one-character separator, on character lists:
`"".split(c) = [""]`, and empty pieces between adjacent separators are kept. -/
def pySplitChar (sep : Char) : List Char → List (List Char)
  | [] => [[]]
  | c :: cs =>
    match pySplitChar sep cs with
    | [] => [[c]]
    | g :: gs => if c = sep then [] :: g :: gs else (c :: g) :: gs

/-- Python `s.split(sep)` on `String`. -/
def pySplit (s : String) (sep : Char) : List String :=
  (pySplitChar sep s.data).map List.asString

/-! ## The category table (`CATEGORIES` in the script, in definition order) -/

/-- The `CATEGORIES` dict of the script: category name paired with its keyword
list, in Python 3.7+ dict insertion order.  `hashes` has no keywords; it is
populated only from `hash_executables` directories. -/
def CATEGORIES : List (String × List String) :=
  [("auth_and_users",
      ["passwd", "shadow", "group", "login", "who", "lastlog", "bash_history", ".bash_history"]),
   ("cron_persistence", ["cron", "crontab", "at", "systemd-timers"]),
   ("ssh_config", ["sshd_config", "authorized_keys", "known_hosts"]),
   ("system_and_auth_logs", ["syslog", "auth.log", "secure", "messages", "dmesg"]),
   ("temp_suspicious", ["tmp", "temp", "suspicious", "malware", "binwalk"]),
   ("web_server", ["apache", "nginx", "httpd", "access.log", "error.log"]),
   ("hashes", [])]

/-- The inner classification loop of `collect_files` for one walked filename:
`for category, keywords in CATEGORIES.items(): if category == "hashes":
continue; if any(keyword in file_lc for keyword in keywords): <copy>`.
The loop has no `break`, so it returns every category into which the file is
copied, in table order. -/
def classifyLoop (file_lc : String) : List (String × List String) → List String
  | [] => []
  | (category, keywords) :: rest =>
    if category = "hashes" then classifyLoop file_lc rest
    else if keywords.any (fun kw => pyIn kw file_lc) then
      category :: classifyLoop file_lc rest
    else classifyLoop file_lc rest

/-- Categories a walked file is copied into by `collect_files`
(`file_lc = file.lower()`). -/
def collect_categories (file : String) : List String :=
  classifyLoop (pyLower file) CATEGORIES

/-! ## Hash-category copying (`collect_files`, `hash_executables` branch)

The destination filesystem is modelled as a map from path to the source that
was last copied there; `shutil.copy2` writes its destination unconditionally. -/

/-- `shutil.copy2(src, dst)` acting on the modelled filesystem: the content at
`dst` becomes (a copy of) `src`, replacing whatever was there. -/
def copy2 (store : String → Option String) (src dst : String) : String → Option String :=
  fun p => if p = dst then some src else store p

/-- Destination name used for hash files:
`f"{system_name}__{file}"` (the directory part `hashes/original/` is common to
all hash placements and omitted from the model). -/
def hashDest (system_name file : String) : String := system_name ++ "__" ++ file

/-- The `hash_executables` branch of `collect_files` for one host directory:
every regular file is copied with `shutil.copy2` to
`hashes/original/{system_name}__{file}` with no existence check. -/
def collect_hashes_host (system_name : String) (files : List String)
    (store : String → Option String) : String → Option String :=
  files.foldl
    (fun st file => copy2 st (system_name ++ "/hash_executables/" ++ file)
      (hashDest system_name file))
    store

/-- The hash branch of `collect_files` over the listed host directories. -/
def collect_hashes (hosts : List (String × List String))
    (store : String → Option String) : String → Option String :=
  hosts.foldl (fun st h => collect_hashes_host h.1 h.2 st) store

/-! ## Collision-safe placement (`collect_files`, keyword branch)

`dst = dest_dir/base_name; base, ext = splitext(base_name); count = 1;
while exists(dst): dst = dest_dir/f"{base}_{count}{ext}"; count += 1`.
The existing contents of the destination directory are modelled as the list of
names already present; `candName base ext k` is the k-th name the loop tries,
where `base`/`ext` are the `os.path.splitext` parts of the desired base name. -/

/-- The k-th candidate destination name tried by the collision loop:
the plain `base ++ ext` first, then `f"{base}_{count}{ext}"` for
`count = 1, 2, ...`. -/
def candName (base ext : String) : Nat → String
  | 0 => base ++ ext
  | k + 1 => base ++ "_" ++ Nat.repr (k + 1) ++ ext

/-- Bounded linear search: first index `k0 ≤ k < k0 + fuel` with `pred k`. -/
def searchP (pred : Nat → Bool) : Nat → Nat → Option Nat
  | 0, _ => none
  | f + 1, k => if pred k then some k else searchP pred f (k + 1)

/-- The destination chosen by the `while os.path.exists(dst)` loop, given the
names `ex` already present in the destination directory.  The loop always
terminates because at most `ex.length` candidate names are taken (candidates
are pairwise distinct), so fuel `ex.length + 1` suffices; the fallback value
of the impossible out-of-fuel branch is never reached. -/
def destPath (ex : List String) (base ext : String) : String :=
  match searchP (fun k => !(decide (candName base ext k ∈ ex))) (ex.length + 1) 0 with
  | some k => candName base ext k
  | none => candName base ext (ex.length + 1)

/-- One placement: choose the destination and copy the file there
(`shutil.copy2` creates the name in the directory). -/
def placeFile (ex : List String) (base ext : String) : List String × String :=
  let dst := destPath ex base ext
  (ex ++ [dst], dst)

/-- `n` successive placements of files with the identical desired base name
into the same directory; returns the final directory contents and the list of
chosen destinations in call order. -/
def placeIter (base ext : String) : Nat → List String → List String × List String
  | 0, ex => (ex, [])
  | n + 1, ex =>
    let p := placeFile ex base ext
    let rest := placeIter base ext n p.1
    (rest.1, p.2 :: rest.2)

/-! ## Hostname extraction (`extract_hostname`)

`re.match(r'(.+?)-20\d{10,}', name)`: anchored at the start, a non-greedy
non-empty prefix of characters other than newline (regex `.` does not match
`'\n'`), then the literal `-20`, then ten or more digits (`\d` modelled as
ASCII digits).  The non-greedy engine takes the least split position that
matches. -/

/-- Does the suffix start with the literal `-20` followed by at least ten
further digits? -/
def tsAt : List Char → Bool
  | '-' :: '2' :: '0' :: rest => decide ((rest.takeWhile Char.isDigit).length ≥ 10)
  | _ => false

/-- Can the regex split `name` at position `p`: at least one prefix character,
none of them a newline (regex `.`), and the timestamp pattern at `p`. -/
def regexSplitAt (name : List Char) (p : Nat) : Bool :=
  decide (1 ≤ p) && (name.take p).all (fun c => !(c == '\n')) && tsAt (name.drop p)

/-- `extract_hostname(name)`: the prefix at the least matching split position
if the regex matches, otherwise `name` unchanged. -/
def extract_hostname (name : String) : String :=
  match searchP (regexSplitAt name.data) (name.data.length + 1) 0 with
  | some p => (name.data.take p).asString
  | none => name

/-! ## Text/binary heuristic (`is_text_file`)

The file read is modelled as `Option (List Nat)`: `none` is an I/O failure
(the `except Exception: return False` path), `some bytes` the file's bytes.
The float `threshold` is modelled as an exact rational. -/

/-- Membership in `bytearray({7, 8, 9, 10, 12, 13, 27} | set(range(0x20, 0x100)))`. -/
def text_char (b : Nat) : Bool :=
  decide (b ∈ ([7, 8, 9, 10, 12, 13, 27] : List Nat)) ||
    (decide (0x20 ≤ b) && decide (b < 0x100))

/-- `is_text_file`: read up to 1024 bytes; empty read or I/O failure is `false`;
otherwise compare the fraction of non-text bytes against `1 - threshold`
(the script's default threshold is `0.90`). -/
def is_text_file (content : Option (List Nat)) (threshold : ℚ) : Bool :=
  match content with
  | none => false
  | some bytes =>
    let chunk := bytes.take 1024
    if chunk = [] then false
    else
      let nontext := chunk.filter (fun b => !(text_char b))
      decide (((nontext.length : ℚ)) / ((chunk.length : ℚ)) < 1 - threshold)

/-! ## Structured record extraction (`parse_log`, `parse_structured_config`)

A parsed record is one of the JSON objects the script emits; every shape
carries `hostname`.  The global accumulator `all_parsed` and the per-host
counter map `summary_data[hostname]['parsed_files']` are modelled as an
explicit state threaded through the two extractors.  A file read is
`Option (List String)` (`none` = the swallowed I/O/decode failure, `some` =
the file's lines); an extractor returns the JSON array it wrote (`none` if it
wrote nothing) together with the new accumulator state. -/

/-- One emitted record (a Python dict in the script). -/
inductive Record where
  | logLine (hostname source_file line : String)
  | passwdEntry (hostname user uid gid desc home shell : String)
  | shadowEntry (hostname user : String) (has_hash : Bool)
  | groupEntry (hostname group gid : String) (members : List String)
  | sudoersRule (hostname rule : String)
  deriving DecidableEq

/-- The run-scoped mutable state of the script: the global `all_parsed` list
and `summary_data` restricted to its single counter `parsed_files`. -/
structure AccState where
  all_parsed : List Record
  summary : String → Nat

/-- `summary_data[hostname]['parsed_files'] += 1`. -/
def bumpParsed (s : String → Nat) (hostname : String) : String → Nat :=
  fun h => if h = hostname then s h + 1 else s h

/-- The records built by `parse_log`'s comprehension:
one `logLine` per line with non-empty strip, in file order. -/
def logRecords (hostname source_file : String) (raw : List String) : List Record :=
  raw.filterMap fun line =>
    if pyStrip line = "" then none
    else some (.logLine hostname source_file (pyStrip line))

/-- `parse_log(infile, outfile, hostname, original)`:
free-text strategy.  Writes and accumulates only when at least one record was
produced. -/
def parse_log (infile : Option (List String)) (hostname original_base : String)
    (st : AccState) : Option (List Record) × AccState :=
  match infile with
  | none => (none, st)
  | some raw =>
    let lines := logRecords hostname original_base raw
    if lines = [] then (none, st)
    else (some lines, ⟨st.all_parsed ++ lines, bumpParsed st.summary hostname⟩)

/-- The body of `parse_structured_config`'s per-line loop: split on `':'` and
dispatch on the kind's prefix with each kind's minimum field count; a line
meeting no branch produces nothing. -/
def parseStructuredLine (kind hostname line : String) : Option Record :=
  let parts := pySplit line ':'
  if pyStartswith kind "passwd" && decide (parts.length ≥ 7) then
    some (.passwdEntry hostname (parts.getD 0 "") (parts.getD 2 "") (parts.getD 3 "")
      (parts.getD 4 "") (parts.getD 5 "") (parts.getD 6 ""))
  else if pyStartswith kind "shadow" && decide (parts.length ≥ 2) then
    some (.shadowEntry hostname (parts.getD 0 "")
      (!(parts.getD 1 "" == "*" || parts.getD 1 "" == "!")))
  else if pyStartswith kind "group" && decide (parts.length ≥ 3) then
    some (.groupEntry hostname (parts.getD 0 "") (parts.getD 2 "")
      (if parts.length > 3 then pySplit (parts.getD 3 "") ',' else []))
  else if pyStartswith kind "sudoers" then
    some (.sudoersRule hostname line)
  else none

/-- All records `parse_structured_config` produces from a file's lines:
strip every line, drop the empty ones, then run the per-line dispatch. -/
def structuredRecords (kind hostname : String) (raw : List String) : List Record :=
  ((raw.map pyStrip).filter (fun l => l != "")).filterMap (parseStructuredLine kind hostname)

/-- `parse_structured_config(filepath, outpath, kind, hostname)`:
delimited-account-database strategy.  Returns without writing when the
stripped line list is empty or when no line produced a record. -/
def parse_structured_config (filepath : Option (List String)) (kind hostname : String)
    (st : AccState) : Option (List Record) × AccState :=
  match filepath with
  | none => (none, st)
  | some raw =>
    let lines := (raw.map pyStrip).filter (fun l => l != "")
    if lines = [] then (none, st)
    else
      let result := lines.filterMap (parseStructuredLine kind hostname)
      if result = [] then (none, st)
      else (some result, ⟨st.all_parsed ++ result, bumpParsed st.summary hostname⟩)

/-! ## Parsed-output naming (`parse_all_logs`) -/

/-- `json_name = file.replace(".", "_") + ".json"` (single-character pattern,
so the replace is a character map). -/
def json_name (file : String) : String :=
  (file.data.map (fun c => if c = '.' then '_' else c)).asString ++ ".json"

/-- The write `json.dump(..., open(dst, "w"))` performed by an extractor, on
the modelled `parsed/` directory: an unconditional write of the produced
array, if one was produced. -/
def writeParsed (store : String → Option (List Record)) (outpath : String)
    (res : Option (List Record)) : String → Option (List Record) :=
  match res with
  | none => store
  | some recs => fun p => if p = outpath then some recs else store p

/-! ## Decimal numerals

`Nat.repr` (used by the collision loop through `f"{base}_{count}{ext}"`) is
injective; this is proved via the most-significant-first digit expansion. -/

/-- Most-significant-first decimal digit characters of `n`; mirrors the
recursion of `Nat.toDigitsCore` without its fuel. -/
def digitsMSF (n : Nat) : List Char :=
  if n / 10 = 0 then [Nat.digitChar (n % 10)]
  else digitsMSF (n / 10) ++ [Nat.digitChar (n % 10)]
  termination_by n
  decreasing_by
    exact Nat.div_lt_self (by omega) (by omega)

/-- Base-10 value of a most-significant-first digit-character list. -/
def valD (l : List Char) : Nat :=
  l.foldl (fun a c => a * 10 + (c.toNat - Char.toNat '0')) 0

/-! ## Lemmas: decimal numerals -/

theorem toDigitsCore_append : ∀ (f n : Nat) (ds : List Char),
    Nat.toDigitsCore 10 f n ds = Nat.toDigitsCore 10 f n [] ++ ds
  | 0, _, _ => by simp [Nat.toDigitsCore]
  | f + 1, n, ds => by
    simp only [Nat.toDigitsCore]
    by_cases h : n / 10 = 0
    · simp [h]
    · simp only [if_neg h]
      rw [toDigitsCore_append f (n / 10) (Nat.digitChar (n % 10) :: ds),
        toDigitsCore_append f (n / 10) [Nat.digitChar (n % 10)], List.append_assoc]
      rfl

theorem toDigitsCore_eq_digitsMSF : ∀ (f n : Nat), n < f →
    Nat.toDigitsCore 10 f n [] = digitsMSF n
  | 0, n, h => absurd h (Nat.not_lt_zero n)
  | f + 1, n, _h => by
    rw [digitsMSF]
    simp only [Nat.toDigitsCore]
    by_cases h10 : n / 10 = 0
    · rw [if_pos h10, if_pos h10]
    · rw [if_neg h10, if_neg h10, toDigitsCore_append f (n / 10) [Nat.digitChar (n % 10)],
        toDigitsCore_eq_digitsMSF f (n / 10) (by omega)]

theorem toDigits_eq_digitsMSF (n : Nat) : Nat.toDigits 10 n = digitsMSF n :=
  toDigitsCore_eq_digitsMSF (n + 1) n (Nat.lt_succ_self n)

theorem digitChar_toNat (d : Nat) (h : d < 10) :
    (Nat.digitChar d).toNat - Char.toNat '0' = d := by
  interval_cases d <;> rfl

theorem valD_append (xs : List Char) (c : Char) :
    valD (xs ++ [c]) = valD xs * 10 + (c.toNat - Char.toNat '0') := by
  simp [valD, List.foldl_append]

theorem valD_digitsMSF (n : Nat) : valD (digitsMSF n) = n := by
  induction n using Nat.strong_induction_on with
  | _ n ih =>
    rw [digitsMSF]
    by_cases h10 : n / 10 = 0
    · rw [if_pos h10]
      have h1 : valD [Nat.digitChar (n % 10)] =
          0 * 10 + ((Nat.digitChar (n % 10)).toNat - Char.toNat '0') := rfl
      rw [h1, digitChar_toNat (n % 10) (by omega)]
      omega
    · rw [if_neg h10, valD_append, ih (n / 10) (by omega),
        digitChar_toNat (n % 10) (by omega)]
      omega

theorem repr_data (n : Nat) : (Nat.repr n).data = digitsMSF n := by
  simp only [Nat.repr, toDigits_eq_digitsMSF]
  rfl

theorem nat_repr_injective : Function.Injective Nat.repr := by
  intro m n h
  have hd : digitsMSF m = digitsMSF n := by
    rw [← repr_data, ← repr_data, h]
  have hv := congrArg valD hd
  rwa [valD_digitsMSF, valD_digitsMSF] at hv

/-! ## Lemmas: candidate names and the collision loop -/

theorem candName_injective (base ext : String) : Function.Injective (candName base ext) := by
  intro a b h
  cases a with
  | zero =>
    cases b with
    | zero => rfl
    | succ k =>
      exfalso
      have := congrArg (fun s => s.data.length) h
      simp [candName, String.data_append] at this
      omega
  | succ j =>
    cases b with
    | zero =>
      exfalso
      have := congrArg (fun s => s.data.length) h
      simp [candName, String.data_append] at this
      omega
    | succ k =>
      have hd := congrArg String.data h
      simp only [candName, String.data_append, List.append_assoc] at hd
      have h2 := List.append_cancel_left (List.append_cancel_left hd)
      have h3 := List.append_cancel_right h2
      have h4 : digitsMSF (j + 1) = digitsMSF (k + 1) := by
        rwa [repr_data, repr_data] at h3
      have h5 := congrArg valD h4
      rwa [valD_digitsMSF, valD_digitsMSF] at h5

theorem searchP_eq_some : ∀ (pred : Nat → Bool) (f k p : Nat),
    searchP pred f k = some p →
    pred p = true ∧ k ≤ p ∧ p < k + f ∧ ∀ q, k ≤ q → q < p → pred q = false
  | _, 0, _, _, h => by simp [searchP] at h
  | pred, f + 1, k, p, h => by
    simp only [searchP] at h
    by_cases hk : pred k = true
    · rw [if_pos hk] at h
      obtain rfl : k = p := by injection h
      exact ⟨hk, Nat.le_refl k, by omega, fun q hq1 hq2 => absurd hq2 (by omega)⟩
    · rw [if_neg hk] at h
      obtain ⟨h1, h2, h3, h4⟩ := searchP_eq_some pred f (k + 1) p h
      refine ⟨h1, by omega, by omega, fun q hq1 hq2 => ?_⟩
      by_cases hqk : q = k
      · subst hqk
        exact Bool.not_eq_true _ ▸ (Bool.eq_false_iff.mpr hk)
      · exact h4 q (by omega) hq2

theorem searchP_some_of : ∀ (pred : Nat → Bool) (f k p : Nat), k ≤ p → p < k + f →
    pred p = true → (∀ q, k ≤ q → q < p → pred q = false) →
    searchP pred f k = some p
  | _, 0, _, _, _, h2, _, _ => absurd h2 (by omega)
  | pred, f + 1, k, p, h1, h2, h3, h4 => by
    simp only [searchP]
    by_cases hk : k = p
    · subst hk
      rw [if_pos h3]
    · have hklt : k < p := by omega
      have hpk : pred k = false := h4 k (Nat.le_refl k) hklt
      rw [if_neg (by simp [hpk])]
      exact searchP_some_of pred f (k + 1) p (by omega) (by omega) h3
        (fun q hq1 hq2 => h4 q (by omega) hq2)

theorem searchP_eq_none : ∀ (pred : Nat → Bool) (f k : Nat),
    searchP pred f k = none → ∀ q, k ≤ q → q < k + f → pred q = false
  | _, 0, _, _, _, hq1, hq2 => absurd hq2 (by omega)
  | pred, f + 1, k, h, q, hq1, hq2 => by
    simp only [searchP] at h
    by_cases hk : pred k = true
    · rw [if_pos hk] at h
      exact absurd h (by simp)
    · rw [if_neg hk] at h
      by_cases hqk : q = k
      · subst hqk
        exact Bool.eq_false_iff.mpr hk
      · exact searchP_eq_none pred f (k + 1) h q (by omega) (by omega)

theorem length_le_of_cands_mem (base ext : String) (S : List String) (m : Nat)
    (h : ∀ j, j < m → candName base ext j ∈ S) : m ≤ S.length := by
  have hnd : ((List.range m).map (candName base ext)).Nodup :=
    (List.nodup_range m).map (candName_injective base ext)
  have hcard : ((List.range m).map (candName base ext)).toFinset.card = m := by
    rw [List.toFinset_card_of_nodup hnd]
    simp
  calc m = ((List.range m).map (candName base ext)).toFinset.card := hcard.symm
    _ ≤ S.toFinset.card := by
        apply Finset.card_le_card
        intro x hx
        simp only [List.mem_toFinset, List.mem_map, List.mem_range] at hx
        obtain ⟨j, hj, rfl⟩ := hx
        simpa using h j hj
    _ ≤ S.length := List.toFinset_card_le S

theorem destPath_eq_of_least (ex : List String) (base ext : String) (k : Nat)
    (hfree : candName base ext k ∉ ex)
    (hmin : ∀ j, j < k → candName base ext j ∈ ex) :
    destPath ex base ext = candName base ext k := by
  have hk : k ≤ ex.length := length_le_of_cands_mem base ext ex k hmin
  have hs : searchP (fun i => !(decide (candName base ext i ∈ ex))) (ex.length + 1) 0
      = some k := by
    apply searchP_some_of _ _ _ _ (Nat.zero_le k) (by omega) (by simp [hfree])
    intro q _ hq
    simp [hmin q hq]
  rw [destPath, hs]

theorem destPath_not_mem (ex : List String) (base ext : String) :
    destPath ex base ext ∉ ex := by
  have hex : ∃ k, k ≤ ex.length ∧ candName base ext k ∉ ex := by
    by_contra hc
    push_neg at hc
    have hall : ∀ j, j < ex.length + 1 → candName base ext j ∈ ex :=
      fun j hj => hc j (by omega)
    have := length_le_of_cands_mem base ext ex (ex.length + 1) hall
    omega
  obtain ⟨k0, hk0, hfree0⟩ := hex
  cases hs : searchP (fun i => !(decide (candName base ext i ∈ ex))) (ex.length + 1) 0 with
  | none =>
    exfalso
    have := searchP_eq_none _ _ _ hs k0 (Nat.zero_le k0) (by omega)
    simp [hfree0] at this
  | some p =>
    obtain ⟨h1, _, _, _⟩ := searchP_eq_some _ _ _ _ hs
    have : candName base ext p ∉ ex := by simpa using h1
    rw [destPath, hs]
    exact this

theorem placeIter_inv (base ext : String) : ∀ (n : Nat) (S : List String) (m : Nat),
    (∀ j, candName base ext j ∈ S ↔ j < m) →
    (placeIter base ext n S).2 = (List.range' m n).map (candName base ext) ∧
    (placeIter base ext n S).1 = S ++ (List.range' m n).map (candName base ext)
  | 0, S, m, _ => by simp [placeIter]
  | n + 1, S, m, hinv => by
    have hdst : destPath S base ext = candName base ext m :=
      destPath_eq_of_least S base ext m (by simp [hinv]) (fun j hj => (hinv j).mpr hj)
    have hinv2 : ∀ j, candName base ext j ∈ S ++ [candName base ext m] ↔ j < m + 1 := by
      intro j
      simp only [List.mem_append, List.mem_singleton, hinv j]
      constructor
      · rintro (h | h)
        · omega
        · have := candName_injective base ext h
          omega
      · intro h
        by_cases hj : j < m
        · exact Or.inl hj
        · have hjm : j = m := by omega
          exact Or.inr (by rw [hjm])
    obtain ⟨h1, h2⟩ := placeIter_inv base ext n (S ++ [candName base ext m]) (m + 1) hinv2
    have hrange : List.range' m (n + 1) = m :: List.range' (m + 1) n := rfl
    constructor
    · simp only [placeIter, placeFile, hdst]
      rw [h1, hrange, List.map_cons]
    · simp only [placeIter, placeFile, hdst]
      rw [h2, hrange, List.map_cons, List.append_assoc, List.singleton_append]

/-- C3: repeated placements of files with an identical desired base name `b`
(split by `os.path.splitext` into `base`/`ext`) into a destination directory
produce, starting from a directory holding none of the candidate names,
exactly the distinct paths `b, b_1, b_2, ...` in call order; in general the
chosen destination is the first unused candidate name and never a path that
already exists, so no previously existing file is ever overwritten. -/
theorem collision_safe_placement (base ext : String) (S₀ : List String) (n : Nat)
    (h0 : ∀ j, candName base ext j ∉ S₀) :
    (placeIter base ext n S₀).2 = (List.range n).map (candName base ext) ∧
    ((placeIter base ext n S₀).2).Nodup ∧
    (∀ d ∈ (placeIter base ext n S₀).2, d ∉ S₀) ∧
    (∀ (ex : List String) (k : Nat), candName base ext k ∉ ex →
      (∀ j, j < k → candName base ext j ∈ ex) → destPath ex base ext = candName base ext k) ∧
    (∀ ex : List String, destPath ex base ext ∉ ex) := by
  have hinv : ∀ j, candName base ext j ∈ S₀ ↔ j < 0 := by
    intro j
    simp [h0 j]
  obtain ⟨h1, _⟩ := placeIter_inv base ext n S₀ 0 hinv
  rw [← List.range_eq_range'] at h1
  refine ⟨h1, ?_, ?_, fun ex k => destPath_eq_of_least ex base ext k,
    fun ex => destPath_not_mem ex base ext⟩
  · rw [h1]
    exact (List.nodup_range n).map (candName_injective base ext)
  · intro d hd
    rw [h1] at hd
    simp only [List.mem_map, List.mem_range] at hd
    obtain ⟨j, _, rfl⟩ := hd
    exact h0 j

/-- Witness for `collision_safe_placement`: three placements of `a.txt` into an
initially empty directory yield `a.txt`, `a_1.txt`, `a_2.txt`. -/
theorem collision_safe_placement_witness :
    (∀ j, candName "a" ".txt" j ∉ ([] : List String)) ∧
    (placeIter "a" ".txt" 3 []).2 = ["a.txt", "a_1.txt", "a_2.txt"] := by
  refine ⟨by simp, ?_⟩
  rw [(collision_safe_placement "a" ".txt" [] 3 (by simp)).1]
  decide

/-! ## C1: category assignment -/

theorem classifyLoop_eq_filter (lc : String) : ∀ tbl : List (String × List String),
    classifyLoop lc tbl =
      (tbl.filter (fun ck => ck.1 != "hashes" && ck.2.any (fun kw => pyIn kw lc))).map Prod.fst
  | [] => rfl
  | (category, keywords) :: rest => by
    have hrest := classifyLoop_eq_filter lc rest
    by_cases h1 : category = "hashes"
    · subst h1
      simp [classifyLoop, hrest, List.filter_cons]
    · by_cases h2 : (keywords.any fun kw => pyIn kw lc) = true
      · simp [classifyLoop, hrest, List.filter_cons, h1, h2, bne_iff_ne]
      · simp [classifyLoop, hrest, List.filter_cons, h1, h2, bne_iff_ne]

/-- C1 counterexample: the classification loop of `collect_files` has no
`break`, so the walked file `tmp_passwd` is copied into BOTH `auth_and_users`
(keyword `passwd`) and `temp_suspicious` (keyword `tmp`), not only into the
first matching category. -/
theorem collect_categories_not_unique :
    collect_categories "tmp_passwd" = ["auth_and_users", "temp_suspicious"] ∧
    ¬ (collect_categories "tmp_passwd").length ≤ 1 := by
  refine ⟨by decide, by decide⟩

/-- C1 amended: a walked file is copied into EVERY category of the table
(excluding the keyword-less `hashes` sentinel) that has at least one keyword
occurring case-insensitively as a substring of the filename, in
table-definition order — not only into the first such category. -/
theorem collect_categories_spec (file c : String) :
    c ∈ collect_categories file ↔
      ∃ kws, (c, kws) ∈ CATEGORIES ∧ c ≠ "hashes" ∧
        kws.any (fun kw => pyIn kw (pyLower file)) = true := by
  rw [collect_categories, classifyLoop_eq_filter]
  simp only [List.mem_map, List.mem_filter]
  constructor
  · rintro ⟨⟨c1, kws⟩, ⟨hmem, hpred⟩, rfl⟩
    simp only [Bool.and_eq_true, bne_iff_ne, ne_eq] at hpred
    exact ⟨kws, hmem, hpred.1, hpred.2⟩
  · rintro ⟨kws, hmem, hne, hany⟩
    exact ⟨(c, kws), ⟨hmem, by simp [hne, hany]⟩, rfl⟩

/-- Witness for `collect_categories_spec` at a concrete file and category. -/
theorem collect_categories_spec_witness :
    "temp_suspicious" ∈ collect_categories "tmp_passwd" ∧
    ∃ kws, ("temp_suspicious", kws) ∈ CATEGORIES ∧ ("temp_suspicious" : String) ≠ "hashes" ∧
      kws.any (fun kw => pyIn kw (pyLower "tmp_passwd")) = true :=
  ⟨by decide, (collect_categories_spec "tmp_passwd" "temp_suspicious").mp (by decide)⟩

/-! ## C2: hash-category placement can silently overwrite -/

/-- C2 failing input: hosts `a__b` (hash file `c`) and `a` (hash file `b__c`)
both map to the destination `a__b__c` in `hashes/original/`; the copy for the
second host finds the destination already present and `shutil.copy2` silently
replaces it, violating the no-silent-overwrite invariant. -/
theorem hash_copy_overwrites :
    hashDest "a__b" "c" = hashDest "a" "b__c" ∧
    collect_hashes_host "a__b" ["c"] (fun _ => none) "a__b__c"
      = some "a__b/hash_executables/c" ∧
    collect_hashes [("a__b", ["c"]), ("a", ["b__c"])] (fun _ => none) "a__b__c"
      = some "a/hash_executables/b__c" :=
  ⟨rfl, rfl, rfl⟩

/-! ## C4: the delimited-account-database extractor -/

/-- C4: a line split on `':'` with at least 7 fields yields, for a
`passwd`-kind file, the record built from fields 0,2,3,4,5,6; with at least 2
fields, for a `shadow`-kind file, the record whose `has_hash` is true iff
field 1 is neither `*` nor `!`; with at least 3 fields, for a `group`-kind
file, the record with group = field 0, gid = field 2, and members = field 3
split on `','` when a fourth field exists, else the empty list; lines below
the field-count minimum for their kind produce no record (they are dropped
without failing the file). -/
theorem parse_structured_line_spec (hostname line : String) :
    ((pySplit line ':').length ≥ 7 →
      parseStructuredLine "passwd" hostname line =
        some (.passwdEntry hostname ((pySplit line ':').getD 0 "")
          ((pySplit line ':').getD 2 "") ((pySplit line ':').getD 3 "")
          ((pySplit line ':').getD 4 "") ((pySplit line ':').getD 5 "")
          ((pySplit line ':').getD 6 ""))) ∧
    ((pySplit line ':').length < 7 → parseStructuredLine "passwd" hostname line = none) ∧
    ((pySplit line ':').length ≥ 2 →
      parseStructuredLine "shadow" hostname line =
        some (.shadowEntry hostname ((pySplit line ':').getD 0 "")
          (decide (¬((pySplit line ':').getD 1 "" = "*" ∨
            (pySplit line ':').getD 1 "" = "!"))))) ∧
    ((pySplit line ':').length < 2 → parseStructuredLine "shadow" hostname line = none) ∧
    ((pySplit line ':').length ≥ 3 →
      parseStructuredLine "group" hostname line =
        some (.groupEntry hostname ((pySplit line ':').getD 0 "")
          ((pySplit line ':').getD 2 "")
          (if (pySplit line ':').length > 3 then
            pySplit ((pySplit line ':').getD 3 "") ',' else []))) ∧
    ((pySplit line ':').length < 3 → parseStructuredLine "group" hostname line = none) := by
  have e1 : pyStartswith "passwd" "passwd" = true := rfl
  have e2 : pyStartswith "passwd" "shadow" = false := rfl
  have e3 : pyStartswith "passwd" "group" = false := rfl
  have e4 : pyStartswith "passwd" "sudoers" = false := rfl
  have e5 : pyStartswith "shadow" "passwd" = false := rfl
  have e6 : pyStartswith "shadow" "shadow" = true := rfl
  have e7 : pyStartswith "shadow" "group" = false := rfl
  have e8 : pyStartswith "shadow" "sudoers" = false := rfl
  have e9 : pyStartswith "group" "passwd" = false := rfl
  have e10 : pyStartswith "group" "shadow" = false := rfl
  have e11 : pyStartswith "group" "group" = true := rfl
  have e12 : pyStartswith "group" "sudoers" = false := rfl
  refine ⟨fun h => ?_, fun h => ?_, fun h => ?_, fun h => ?_, fun h => ?_, fun h => ?_⟩
  · simp [parseStructuredLine, e1, h]
  · have h7 : ¬ ((pySplit line ':').length ≥ 7) := by omega
    simp [parseStructuredLine, e1, e2, e3, e4, h7]
  · have hb : ∀ s : String,
        (!(s == "*") && !(s == "!")) = (!decide (s = "*") && !decide (s = "!")) := by
      intro s
      by_cases h1 : s = "*" <;> by_cases h2 : s = "!" <;> simp [h1, h2]
    simp [parseStructuredLine, e5, e6, h, hb]
  · have hn : ¬ ((pySplit line ':').length ≥ 2) := by omega
    simp [parseStructuredLine, e5, e6, e7, e8, hn]
  · simp [parseStructuredLine, e9, e10, e11, h]
  · have hn : ¬ ((pySplit line ':').length ≥ 3) := by omega
    simp [parseStructuredLine, e9, e10, e11, e12, hn]

/-- Witness for `parse_structured_line_spec`: the passwd-style line of the
spec's round-trip example. -/
theorem parse_structured_line_spec_witness :
    (pySplit "alice:x:1001:1001:Alice:/home/alice:/bin/bash" ':').length ≥ 7 ∧
    parseStructuredLine "passwd" "web01" "alice:x:1001:1001:Alice:/home/alice:/bin/bash" =
      some (.passwdEntry "web01" "alice" "1001" "1001" "Alice" "/home/alice" "/bin/bash") :=
  ⟨by decide,
    (parse_structured_line_spec "web01" "alice:x:1001:1001:Alice:/home/alice:/bin/bash").1
      (by decide)⟩

/-! ## C6: unreadable or empty files are never text -/

/-- C6: the text classifier returns `false` when the read yields no bytes and
returns `false` on any I/O failure (the error is swallowed into the result,
never propagated): an unreadable file is never classified as text. -/
theorem is_text_file_error_false :
    (∀ t : ℚ, is_text_file none t = false) ∧
    (∀ t : ℚ, is_text_file (some []) t = false) :=
  ⟨fun _ => rfl, fun _ => rfl⟩

/-! ## C7: empty record lists are suppressed -/

/-- C7: if a file produces zero records under either extraction strategy,
no output JSON is written (`none`), nothing is appended to the global
accumulator, and the per-host parsed-files counter is not incremented —
the state is returned unchanged. -/
theorem empty_output_suppressed (raw : List String) (kind hostname src : String)
    (st : AccState) :
    (logRecords hostname src raw = [] → parse_log (some raw) hostname src st = (none, st)) ∧
    (structuredRecords kind hostname raw = [] →
      parse_structured_config (some raw) kind hostname st = (none, st)) := by
  constructor
  · intro h
    simp [parse_log, h]
  · intro h
    rw [structuredRecords] at h
    simp only [parse_structured_config]
    by_cases hl : (raw.map pyStrip).filter (fun l => l != "") = []
    · rw [if_pos hl]
    · rw [if_neg hl]
      simp [h]

/-- Witness for `empty_output_suppressed`: a file whose lines are all blank. -/
theorem empty_output_suppressed_witness :
    logRecords "h1" "s" ["", "   "] = [] ∧
    structuredRecords "passwd" "h1" ["", "   "] = [] ∧
    parse_log (some ["", "   "]) "h1" "s" ⟨[], fun _ => 0⟩ = (none, ⟨[], fun _ => 0⟩) ∧
    parse_structured_config (some ["", "   "]) "passwd" "h1" ⟨[], fun _ => 0⟩ =
      (none, ⟨[], fun _ => 0⟩) :=
  ⟨rfl, rfl,
    (empty_output_suppressed ["", "   "] "passwd" "h1" "s" ⟨[], fun _ => 0⟩).1 rfl,
    (empty_output_suppressed ["", "   "] "passwd" "h1" "s" ⟨[], fun _ => 0⟩).2 rfl⟩

/-! ## C9: determinism and threshold monotonicity -/

/-- C9: the text classifier is a function of the byte content and threshold
alone (deterministic), and threshold-monotonic: if it returns non-text at
threshold `t`, it returns non-text at every threshold greater than `t`. -/
theorem is_text_file_monotone :
    (∀ (c c' : Option (List Nat)) (t t' : ℚ), c = c' → t = t' →
      is_text_file c t = is_text_file c' t') ∧
    (∀ (c : Option (List Nat)) (t t' : ℚ), t < t' →
      is_text_file c t = false → is_text_file c t' = false) := by
  constructor
  · rintro c _ t _ rfl rfl
    rfl
  · rintro (_ | bytes) t t' hlt hf
    · rfl
    · simp only [is_text_file] at hf ⊢
      by_cases hc : bytes.take 1024 = []
      · rw [if_pos hc]
      · rw [if_neg hc] at hf ⊢
        rw [decide_eq_false_iff_not] at hf ⊢
        intro hlt2
        exact hf (lt_trans hlt2 (by linarith))

/-- Witness for `is_text_file_monotone`: a non-text verdict at threshold 0
stays non-text at the larger threshold 1. -/
theorem is_text_file_monotone_witness :
    (0 : ℚ) < 1 ∧ is_text_file (some []) 0 = false ∧ is_text_file (some []) 1 = false :=
  ⟨by decide, rfl, is_text_file_monotone.2 (some []) 0 1 (by decide) rfl⟩

/-! ## C5: the text-fraction comparison is strict -/

/-- C5 counterexample: a 10-byte chunk with exactly 9 printable-ish bytes has
text fraction exactly equal to the default threshold 9/10, so the claim's
`fraction ≥ threshold` condition holds, yet the classifier answers `false`:
the code's comparison `len(nontext)/len(chunk) < 1 - threshold` is strict in
the text fraction. -/
theorem is_text_file_boundary :
    ((([65, 65, 65, 65, 65, 65, 65, 65, 65, 0] : List Nat).filter text_char).length : ℚ) /
        ((([65, 65, 65, 65, 65, 65, 65, 65, 65, 0] : List Nat)).length : ℚ) = 9 / 10 ∧
    ([65, 65, 65, 65, 65, 65, 65, 65, 65, 0] : List Nat) ≠ [] ∧
    is_text_file (some [65, 65, 65, 65, 65, 65, 65, 65, 65, 0]) (9 / 10) = false := by
  refine ⟨?_, by decide, ?_⟩
  · have h9 : (([65, 65, 65, 65, 65, 65, 65, 65, 65, 0] : List Nat).filter text_char).length
        = 9 := by decide
    have h10 : (([65, 65, 65, 65, 65, 65, 65, 65, 65, 0] : List Nat)).length = 10 := by decide
    rw [h9, h10]
    norm_num
  · simp only [is_text_file]
    rw [if_neg (by decide)]
    rw [decide_eq_false_iff_not]
    have e1 : ((([65, 65, 65, 65, 65, 65, 65, 65, 65, 0] : List Nat).take 1024).filter
        (fun b => !(text_char b))).length = 1 := by decide
    have e2 : (([65, 65, 65, 65, 65, 65, 65, 65, 65, 0] : List Nat).take 1024).length = 10 := by
      decide
    rw [e1, e2]
    norm_num

/-- C5 amended: the classifier examines at most the first 1024 bytes, and
classifies the file as text iff the read chunk is non-empty and the fraction
of its bytes in the printable-ish set is STRICTLY GREATER than the threshold
(the code compares the non-text fraction strictly below `1 - threshold`). -/
theorem is_text_file_spec (bytes : List Nat) (t : ℚ) :
    is_text_file (some bytes) t = is_text_file (some (bytes.take 1024)) t ∧
    (is_text_file (some bytes) t = true ↔
      bytes.take 1024 ≠ [] ∧
      t < (((bytes.take 1024).filter text_char).length : ℚ) /
        (((bytes.take 1024)).length : ℚ)) := by
  constructor
  · simp [is_text_file, List.take_take]
  · simp only [is_text_file]
    by_cases hc : bytes.take 1024 = []
    · rw [if_pos hc]
      simp [hc]
    · rw [if_neg hc]
      simp only [decide_eq_true_eq, ne_eq, hc, not_false_iff, true_and]
      have hlen : 0 < (bytes.take 1024).length := List.length_pos.mpr hc
      have hsum : (bytes.take 1024).length =
          ((bytes.take 1024).filter text_char).length +
            ((bytes.take 1024).filter (fun b => !(text_char b))).length :=
        List.length_eq_length_filter_add text_char
      have hcast : (((bytes.take 1024).filter (fun b => !(text_char b))).length : ℚ) =
          ((bytes.take 1024).length : ℚ) -
            (((bytes.take 1024).filter text_char).length : ℚ) := by
        rw [hsum]
        push_cast
        ring
      rw [hcast, sub_div, div_self (by positivity)]
      constructor <;> intro hx <;> linarith

/-- Witness for `is_text_file_spec` at a concrete byte list and threshold. -/
theorem is_text_file_spec_witness :
    is_text_file (some [65]) (0 : ℚ) = is_text_file (some (([65] : List Nat).take 1024)) 0 :=
  (is_text_file_spec [65] 0).1

/-! ## C8: hostname extraction -/

/-- C8 counterexample: in `a\nb-20123456789012` the pattern `-20` followed by
twelve digits first occurs after the 3-character prefix `a\nb`, so the claim
says the extractor returns that prefix; but the regex prefix `(.+?)` cannot
match the newline, so `re.match` fails and the filename is returned
unchanged. -/
theorem extract_hostname_newline :
    tsAt (("a\nb-20123456789012" : String).data.drop 3) = true ∧
    (∀ q, 1 ≤ q → q < 3 → tsAt (("a\nb-20123456789012" : String).data.drop q) = false) ∧
    extract_hostname "a\nb-20123456789012" = "a\nb-20123456789012" ∧
    extract_hostname "a\nb-20123456789012" ≠
      (("a\nb-20123456789012" : String).data.take 3).asString := by
  refine ⟨by decide, by decide, by decide, by decide⟩

/-- C8 amended: the extractor returns the prefix before the first occurrence
of `-20` followed by ten or more further digits, PROVIDED the pattern starts
after at least one prefix character and the prefix contains no newline
(regex `.` does not match `'\n'`); otherwise — including when every candidate
prefix contains a newline — it returns the filename unchanged.  In
particular `web01-20230401120000_syslog` yields `web01` and `randomfile.txt`
is returned unchanged. -/
theorem extract_hostname_spec :
    (∀ (name : String) (p : Nat), 1 ≤ p → tsAt (name.data.drop p) = true →
      (∀ q, 1 ≤ q → q < p → tsAt (name.data.drop q) = false) →
      (name.data.take p).all (fun c => !(c == '\n')) = true →
      extract_hostname name = (name.data.take p).asString) ∧
    (∀ name : String,
      (∀ p, 1 ≤ p → ¬(tsAt (name.data.drop p) = true ∧
        (name.data.take p).all (fun c => !(c == '\n')) = true)) →
      extract_hostname name = name) ∧
    extract_hostname "web01-20230401120000_syslog" = "web01" ∧
    extract_hostname "randomfile.txt" = "randomfile.txt" := by
  refine ⟨?_, ?_, by decide, by decide⟩
  · intro name p h1 h2 h3 h4
    have hplen : p < name.data.length := by
      by_contra hge
      push_neg at hge
      rw [List.drop_eq_nil_of_le hge] at h2
      simp [tsAt] at h2
    have hs : searchP (regexSplitAt name.data) (name.data.length + 1) 0 = some p := by
      apply searchP_some_of _ _ _ _ (Nat.zero_le p) (by omega)
      · simp [regexSplitAt, h1, h2, h4]
      · intro q _ hqp
        by_cases hq1 : 1 ≤ q
        · simp [regexSplitAt, h3 q hq1 hqp]
        · have hq0 : q = 0 := by omega
          subst hq0
          simp [regexSplitAt]
    rw [extract_hostname, hs]
  · intro name hno
    cases hs : searchP (regexSplitAt name.data) (name.data.length + 1) 0 with
    | none => rw [extract_hostname, hs]
    | some p =>
      exfalso
      obtain ⟨hp, _, _, _⟩ := searchP_eq_some _ _ _ _ hs
      simp only [regexSplitAt, Bool.and_eq_true, decide_eq_true_eq] at hp
      exact hno p hp.1.1 ⟨hp.2, hp.1.2⟩

/-- Witness for `extract_hostname_spec`: the split of
`web01-20230401120000_syslog` at position 5 satisfies all hypotheses, and the
extractor returns the 5-character prefix. -/
theorem extract_hostname_spec_witness :
    (1 ≤ 5 ∧ tsAt (("web01-20230401120000_syslog" : String).data.drop 5) = true ∧
      (∀ q, 1 ≤ q → q < 5 →
        tsAt (("web01-20230401120000_syslog" : String).data.drop q) = false) ∧
      (("web01-20230401120000_syslog" : String).data.take 5).all
        (fun c => !(c == '\n')) = true) ∧
    extract_hostname "web01-20230401120000_syslog" =
      (("web01-20230401120000_syslog" : String).data.take 5).asString :=
  ⟨⟨by decide, by decide, by decide, by decide⟩,
    extract_hostname_spec.1 "web01-20230401120000_syslog" 5 (by decide) (by decide)
      (by decide) (by decide)⟩

/-! ## C10: parsed-output naming is not injective -/

/-- C10: the parsed-output naming map (replace `.` by `_`, append `.json`)
sends the distinct originals `a.txt` and `a_txt` to the same `a_txt.json`;
since the extractor writes its output unconditionally, parsing the second
file silently overwrites the JSON written for the first. -/
theorem json_name_collision :
    json_name "a.txt" = json_name "a_txt" ∧
    ("a.txt" : String) ≠ "a_txt" ∧
    writeParsed (fun _ => none) ("parsed/" ++ json_name "a.txt")
        (parse_log (some ["x"]) "h1" "a.txt" ⟨[], fun _ => 0⟩).1
        ("parsed/" ++ json_name "a.txt")
      = some [Record.logLine "h1" "a.txt" "x"] ∧
    writeParsed
        (writeParsed (fun _ => none) ("parsed/" ++ json_name "a.txt")
          (parse_log (some ["x"]) "h1" "a.txt" ⟨[], fun _ => 0⟩).1)
        ("parsed/" ++ json_name "a_txt")
        (parse_log (some ["y"]) "h1" "a_txt" ⟨[], fun _ => 0⟩).1
        ("parsed/" ++ json_name "a.txt")
      = some [Record.logLine "h1" "a_txt" "y"] := by
  refine ⟨rfl, by decide, rfl, rfl⟩

end UACrunch
